import Mathlib

/-!
Verification of the `streams`/`streamz` push-based dataflow library.

This file shallowly embeds the parts of the repository that the claims
touch:

* `src/streams/batch.py` — the `Batch` tuple subclass with
  `__stream_map__` and `__stream_accumulate__` (toolz `accumulate`
  semantics, including the burn of the first yielded element);
* `src/streamz/dask.py` — the Dask backend's `accumulate.update`,
  `return_null`, `filter.update` and the `gather.update` NULL_COMPUTE
  guard (a `client.submit` of a pure function is modelled as direct
  application, so Dask futures carrying values become the values);
* `src/streamz/dataframe/core.py` — `_cumulative_accumulator`, with a
  pandas frame modelled as a list of rows and the cumulative pandas op
  (`cumsum`, …) as a length-preserving list function;
* the core `Stream` node graph and the operators `map`, `scan`, `zip`,
  `combine_latest` and `unique`, whose implementation module is not part
  of the sources at hand: these are modelled from the spec, as marked on
  each definition.

Python sequences become `List`, tuples become `Prod` or `List`, the
`no_default` sentinel becomes `Option.none`, and an exception escaping a
call becomes `Except.error`.
-/

namespace Streams

/-! ## Batch (`src/streams/batch.py`)

A `Batch` is a tuple of payloads; we embed it as a `List`. -/

/-- `Batch.__stream_map__`: `Batch(map(func, self))`. -/
def streamMap {α β : Type} (b : List α) (func : α → β) : List β :=
  b.map func

/-- The loop of toolz `accumulate` after the first `yield`: `total` is the
running accumulator; for each element `x` the generator computes
`total = binop(total, x)` and yields it. -/
def accumLoop {α : Type} (binop : α → α → α) (total : α) : List α → List α
  | [] => []
  | x :: xs =>
    let t := binop total x
    t :: accumLoop binop t xs

/-- toolz `accumulate(binop, seq, initial)` with an explicit initial value:
yields `initial` first, then the successive folds. -/
def toolzAccumulateInit {α : Type} (binop : α → α → α) (seq : List α) (initial : α) :
    List α :=
  initial :: accumLoop binop initial seq

/-- toolz `accumulate(binop, seq)` without an initial value: takes the first
element of `seq` as the starting total (raising `StopIteration` inside the
generator when `seq` is empty, so the generator yields nothing), then yields
it and the successive folds. -/
def toolzAccumulate {α : Type} (binop : α → α → α) : List α → List α
  | [] => []
  | x :: xs => x :: accumLoop binop x xs

/-- `Batch.__stream_accumulate__(func, accumulator)`. `accumulator = none`
embeds the `no_default` sentinel. The generator's first element is burnt
with `next(seq)`, which raises (modelled as `Except.error`) when the
generator is exhausted; afterwards `acc = seq[-1] if seq else accumulator`.
The returned pair is `(acc, seq)` with `acc` still optional, since in the
`no_default` mode on a one-element batch the sentinel itself is returned. -/
def streamAccumulate {α : Type} (func : α → α → α) (b : List α)
    (accumulator : Option α) : Except String (Option α × List α) :=
  let full : List α :=
    match accumulator with
    | some acc => toolzAccumulateInit func b acc
    | none => toolzAccumulate func b
  match full with
  | [] => .error "StopIteration"
  | _ :: seq => .ok (if seq.isEmpty then accumulator else seq.getLast?, seq)

/-! ## Dask backend `accumulate.update` (`src/streamz/dask.py`)

`client.submit(f, a, b)` runs `f` on the cluster and hands back a future
holding `f a b`; we model the future by its value, so `submit` is direct
application and `getitem(result, i)` is projection. `self.state` starts as
`core.no_default`, embedded as `none`. -/

/-- `accumulate.update` with `returns_state=False`: on the first event the
state becomes the event and it is emitted; afterwards
`result = func(state, x)`, the state becomes `result` and `result` is
emitted. Returns `(new state, emitted value)`. -/
def daskAccumulateUpdate {α : Type} (func : α → α → α) (state : Option α)
    (x : α) : Option α × α :=
  match state with
  | none => (some x, x)
  | some s =>
    let result := func s x
    (some result, result)

/-- `accumulate.update` with `returns_state=True`: `func` returns the pair
`(state, result)`; `getitem(result, 0)` becomes the new state and
`getitem(result, 1)` is emitted. Python is dynamically typed, so states
and events share one payload type. -/
def daskAccumulateUpdateRS {α : Type} (func : α → α → α × α)
    (state : Option α) (x : α) : Option α × α :=
  match state with
  | none => (some x, x)
  | some s =>
    let result := func s x
    (some result.1, result.2)

/-- Driving `accumulate.update` over a whole input sequence, collecting the
emitted values in order. -/
def daskAccumulateRun {α : Type} (func : α → α → α) (state : Option α) :
    List α → List α
  | [] => []
  | x :: xs =>
    let (state', out) := daskAccumulateUpdate func state x
    out :: daskAccumulateRun func state' xs

/-! ## Dask backend `filter` / `gather` (`src/streamz/dask.py`)

Payloads flowing through the Dask backend: a scalar, the `NULL_COMPUTE`
sentinel string, or a sequence of scalars/sentinels (the shape the
`gather.update` guard inspects with `isinstance(result, Sequence)` and a
top-level `any`). -/

/-- A scalar payload: an ordinary value or the `NULL_COMPUTE` sentinel. -/
inductive SVal where
  | base : Nat → SVal
  | nullCompute : SVal
deriving DecidableEq, Repr

/-- A payload as seen by `gather.update`: a scalar or a `Sequence`. -/
inductive DVal where
  | scalar : SVal → DVal
  | seq : List SVal → DVal
deriving DecidableEq, Repr

/-- `isinstance(result, Sequence)`. -/
def DVal.isSequence : DVal → Bool
  | .scalar _ => false
  | .seq _ => true

/-- The top-level elements iterated by `any(r == NULL_COMPUTE for r in result)`
(a scalar is not iterated by that branch of the guard). -/
def DVal.elems : DVal → List SVal
  | .scalar _ => []
  | .seq l => l

/-- `result == NULL_COMPUTE`: only the sentinel scalar equals the sentinel. -/
def DVal.isNull : DVal → Bool
  | .scalar .nullCompute => true
  | _ => false

/-- `return_null(func)`: wraps a predicate so that a truthy verdict returns
the argument itself and a falsy verdict returns `NULL_COMPUTE`. -/
def return_null (func : DVal → Bool) (x : DVal) : DVal :=
  if func x then x else DVal.scalar .nullCompute

/-- `filter.update`: submits the `return_null`-wrapped predicate on `x` and
unconditionally emits the resulting value downstream (`client.submit` of the
pure wrapped predicate is modelled as application). The returned value is
what the downstream receives. -/
def daskFilterUpdate (predicate : DVal → Bool) (x : DVal) : DVal :=
  return_null predicate x

/-- The guard in `gather.update`: after gathering `result`, it is emitted
downstream iff `not (isinstance(result, Sequence) and any(r == NULL_COMPUTE
for r in result)) and result != NULL_COMPUTE`. -/
def gatherEmits (result : DVal) : Bool :=
  !(result.isSequence && result.elems.any (fun r => r == SVal.nullCompute))
    && !result.isNull

/-! ## Streaming dataframe `_cumulative_accumulator`
(`src/streamz/dataframe/core.py`)

A pandas frame is modelled as a `List` of rows; `pd.concat` is append;
`getattr(df, op)()` — the cumulative aggregation `cumsum`/`cumprod`/… — is
an argument `op`, which on real pandas frames always returns a frame with
the same rows; `result.iloc[-1:]` keeps the last row, `result[1:]` drops
the first. -/

/-- `_cumulative_accumulator(state, new, op)`: returns
`(new_state, result)`. -/
def cumulativeAccumulator {α : Type} (op : List α → List α)
    (state new : List α) : List α × List α :=
  if new.length = 0 then (state, new)
  else
    let df := if state.length = 0 then new else state ++ new
    let result := op df
    let newState := result.drop (result.length - 1)
    let result := if state.length ≠ 0 then result.drop 1 else result
    (newState, result)

/-! ## Core operators, modelled from the spec

The module implementing the core `Stream` node and its operator library is
not among the sources at hand — only its tests, the batch/dask layers and
the spec describe it — so the following definitions are modelled from the
spec's operator contracts and concrete scenarios. A single-input operator
chain is embedded as a function from the input event sequence to the output
event sequence (spec: "Within one upstream, event order is preserved
through any chain of single-input operators"). -/

/-- Modelled from the spec: the core `map(f)` operator, missing from the
sources at hand — "on `update(x)`, emits `f(x)`"; over an input sequence it
emits the image of each event in order. -/
def coreMap {α β : Type} (f : α → β) (xs : List α) : List β :=
  xs.map f

/-- Modelled from the spec: one `update` of the core `scan(f)` operator
(no `start`), missing from the sources at hand — the first event is
"absorbed as accumulator with no output"; thereafter each event `x`
produces `state' = f(state, x)`, which is emitted. Returns the new state
and the emitted values (none or one). -/
def coreScanUpdate {α : Type} (f : α → α → α) (state : Option α) (x : α) :
    Option α × List α :=
  match state with
  | none => (some x, [])
  | some s => (some (f s x), [f s x])

/-- Modelled from the spec: the core `scan(f)` with no `start` driven over
a whole input sequence, concatenating the emitted values. -/
def coreScan {α : Type} (f : α → α → α) (state : Option α) : List α → List α
  | [] => []
  | x :: xs =>
    let (state', out) := coreScanUpdate f state x
    out ++ coreScan f state' xs

/-- An event arriving at a two-input operator, tagged with the input it
came from (the `who` argument of `update`). -/
inductive TwoIn (α β : Type) where
  | fromA : α → TwoIn α β
  | fromB : β → TwoIn α β
deriving DecidableEq, Repr

/-- Modelled from the spec: one `update` of the core `combine_latest`
operator, missing from the sources at hand — it "keeps the *last* value
seen on each input; emits a tuple only after every input has produced at
least one value, and on every subsequent event from any input". The state
is the pair of last-seen values; returns the new state and the emitted
tuples (none or one). -/
def combineLatestUpdate {α β : Type} (state : Option α × Option β)
    (e : TwoIn α β) : (Option α × Option β) × List (α × β) :=
  let state' :=
    match e with
    | .fromA x => (some x, state.2)
    | .fromB y => (state.1, some y)
  match state' with
  | (some a, some b) => (state', [(a, b)])
  | _ => (state', [])

/-- Modelled from the spec: `combine_latest` driven over an event
sequence, concatenating the emitted tuples. -/
def combineLatestRun {α β : Type} (state : Option α × Option β) :
    List (TwoIn α β) → List (α × β)
  | [] => []
  | e :: es =>
    let (state', out) := combineLatestUpdate state e
    out ++ combineLatestRun state' es

/-- Modelled from the spec: one `update` of the core
`unique(history, key)` operator, missing from the sources at hand — it
emits `x` iff `key(x)` is not among the recorded keys, then records
`key(x)`; with an integer `history` the record is a FIFO of that capacity
whose oldest entry is evicted on admission of a new key, with
`history = None` (`none`) it is unbounded. The state is the FIFO of
recorded keys, oldest first; returns the new state and the emitted values
(none or one). -/
def uniqueUpdate {α κ : Type} [DecidableEq κ] (history : Option Nat)
    (key : α → κ) (seen : List κ) (x : α) : List κ × List α :=
  if key x ∈ seen then (seen, [])
  else
    let seen' := seen ++ [key x]
    let seen'' :=
      match history with
      | none => seen'
      | some h => if h < seen'.length then seen'.tail else seen'
    (seen'', [x])

/-- Modelled from the spec: `unique` driven over an input sequence,
concatenating the emitted values. -/
def uniqueRun {α κ : Type} [DecidableEq κ] (history : Option Nat)
    (key : α → κ) (seen : List κ) : List α → List α
  | [] => []
  | x :: xs =>
    let (seen', out) := uniqueUpdate history key seen x
    out ++ uniqueRun history key seen' xs

/-! ## Emission futures and backpressure, modelled from the spec

`emit` "iterates downstreams in registration order, invokes each's
`update(value, who=self)`, collects any resulting futures, and returns a
composite future that resolves when all have resolved"; an operator's
`update` performs its own `emit` and completes afterwards. We record the
temporal behaviour as a trace of completion events produced by the
propagation: node identifiers are `Nat`, the graph is the registration-
ordered downstream map, and a fuel argument bounds the recursion depth
(the spec allows cyclic graphs, on which propagation does not
terminate). -/

/-- A completion event in the propagation trace: `updateDone d` marks the
completion of downstream `d`'s `update`, `emitResolved n` the resolution of
the composite future returned by node `n`'s `emit`. -/
inductive Ev where
  | updateDone : Nat → Ev
  | emitResolved : Nat → Ev
deriving DecidableEq, Repr

/-- Modelled from the spec: the trace of completion events produced by
`emit` on node `n` (the core `Stream.emit`, missing from the sources at
hand). For each downstream `d` of `n` in registration order, `d`'s
`update` runs — performing `d`'s own (recursive) `emit` and then
completing — and only after all of them does the composite future
returned by `emit` resolve. -/
def emitTrace (g : Nat → List Nat) : Nat → Nat → List Ev
  | 0, _ => []
  | fuel + 1, n =>
    ((g n).map (fun d => emitTrace g fuel d ++ [Ev.updateDone d])).flatten
      ++ [Ev.emitResolved n]

/-! ## `zip` with bounded queues, modelled from the spec

`zip(*inputs, maxsize)` "maintains one bounded FIFO per input. On event
from input *i*, appends to queue *i*; if all queues non-empty, dequeues
one from each and emits as a tuple. If any queue reaches `maxsize`, the
producing `update` suspends until it is drained." We model the two-input
instance: each `emit` into the zip carries an identifier, and the state
records which identifiers' futures have resolved; a suspended `update`
is a pending put whose identifier stays unresolved until admission. -/

/-- The state of a two-input `zip` node: the two bounded FIFOs, the
suspended puts per input (emit identifier with the value awaiting
enqueue, oldest first), the tuples emitted downstream, and the emit
identifiers whose returned future has resolved. -/
structure ZipState where
  qa : List Nat
  qb : List Nat
  pendA : List (Nat × Nat)
  pendB : List (Nat × Nat)
  out : List (Nat × Nat)
  resolved : List Nat
deriving DecidableEq, Repr

/-- The zip state before any event. -/
def ZipState.init : ZipState := ⟨[], [], [], [], [], []⟩

/-- Modelled from the spec: "if all queues non-empty, dequeues one from
each and emits as a tuple" — one update appends one element, so at most
one tuple is dequeued. Returns the emitted tuples (none or one) and the
remaining queues. -/
def drain1 : List Nat → List Nat → List (Nat × Nat) × List Nat × List Nat
  | x :: xs, y :: ys => ([(x, y)], xs, ys)
  | xs, ys => ([], xs, ys)

/-- Modelled from the spec: resuming suspended puts — a suspended
`update` "suspends until it is drained": whenever a queue with pending
puts has room, the oldest pending put is enqueued, the resumed update
performs the all-queues-non-empty check (possibly emitting a tuple) and
its future resolves. Repeats until no pending put can be admitted; the
fuel is an upper bound on the number of admissions. -/
def zipAdmit (m : Nat) : Nat → ZipState → ZipState
  | 0, s => s
  | fuel + 1, s =>
    match s.pendA, s.pendB with
    | (i, x) :: restA, _ =>
      if s.qa.length < m then
        let (o, qa', qb') := drain1 (s.qa ++ [x]) s.qb
        zipAdmit m fuel
          ⟨qa', qb', restA, s.pendB, s.out ++ o, s.resolved ++ [i]⟩
      else
        match s.pendB with
        | (j, y) :: restB =>
          if s.qb.length < m then
            let (o, qa', qb') := drain1 s.qa (s.qb ++ [y])
            zipAdmit m fuel
              ⟨qa', qb', s.pendA, restB, s.out ++ o, s.resolved ++ [j]⟩
          else s
        | [] => s
    | [], (j, y) :: restB =>
      if s.qb.length < m then
        let (o, qa', qb') := drain1 s.qa (s.qb ++ [y])
        zipAdmit m fuel
          ⟨qa', qb', s.pendA, restB, s.out ++ o, s.resolved ++ [j]⟩
      else s
    | [], [] => s

/-- Modelled from the spec: `zip.update` for an event on input *a*
carrying emit identifier `i` and value `x`. If queue *a* is at
`maxsize`, the put — and with it the producing `emit`'s future —
suspends as a pending put. Otherwise the value is enqueued, a tuple is
dequeued and emitted if all queues are non-empty, the future of emit
`i` resolves, and any suspended puts that now have room are resumed. -/
def zipEventA (m : Nat) (i x : Nat) (s : ZipState) : ZipState :=
  if m ≤ s.qa.length then
    { s with pendA := s.pendA ++ [(i, x)] }
  else
    let (o, qa', qb') := drain1 (s.qa ++ [x]) s.qb
    zipAdmit m (s.pendA.length + s.pendB.length)
      ⟨qa', qb', s.pendA, s.pendB, s.out ++ o, s.resolved ++ [i]⟩

/-- Modelled from the spec: `zip.update` for an event on input *b*,
symmetric to `zipEventA`. -/
def zipEventB (m : Nat) (i y : Nat) (s : ZipState) : ZipState :=
  if m ≤ s.qb.length then
    { s with pendB := s.pendB ++ [(i, y)] }
  else
    let (o, qa', qb') := drain1 s.qa (s.qb ++ [y])
    zipAdmit m (s.pendA.length + s.pendB.length)
      ⟨qa', qb', s.pendA, s.pendB, s.out ++ o, s.resolved ++ [i]⟩

/-- Modelled from the spec: a sequence of tagged events fed to the zip
node, each carrying its emit identifier and value. -/
def zipRun (m : Nat) (s : ZipState) : List (TwoIn (Nat × Nat) (Nat × Nat)) → ZipState
  | [] => s
  | .fromA (i, x) :: es => zipRun m (zipEventA m i x s) es
  | .fromB (i, y) :: es => zipRun m (zipEventB m i y s) es

/-! ## Helper lemmas -/

/-- `List.scanl` is the cons of its head onto its tail. -/
lemma scanl_cons_head_tail {α β : Type} (f : β → α → β) (b : β) (l : List α) :
    List.scanl f b l = b :: (List.scanl f b l).tail := by
  cases l <;> simp [List.scanl]

/-- Driving the Dask `accumulate.update` from a populated state emits the
tail of the scan of the inputs. -/
lemma daskAccumulateRun_some {α : Type} (f : α → α → α) (s : α)
    (ys : List α) :
    daskAccumulateRun f (some s) ys = (List.scanl f s ys).tail := by
  induction ys generalizing s with
  | nil => simp [daskAccumulateRun, List.scanl]
  | cons y ys ih =>
    rw [List.scanl]
    simp only [daskAccumulateRun, daskAccumulateUpdate, List.tail_cons, ih]
    exact (scanl_cons_head_tail f (f s y) ys).symm

/-! ## Theorems for the claims -/

/-- C7. Map fusion: applying `map(g)` then `map(f)` to any input sequence
yields the same outputs as the single stage `map(f ∘ g)`; in the batch
embedding, `b.__stream_map__(g).__stream_map__(f)` equals
`b.__stream_map__(f ∘ g)` for every `Batch b`. -/
theorem map_fusion {α β γ : Type} (f : β → γ) (g : α → β) (b : List α) :
    streamMap (streamMap b g) f = streamMap b (f ∘ g)
    ∧ coreMap f (coreMap g b) = coreMap (f ∘ g) b := by
  constructor <;> simp [streamMap, coreMap, List.map_map]

/-- C2. The Dask `accumulate.update` with `start = no_default`: the first
event becomes the accumulator and is emitted unchanged; every subsequent
event `x` replaces the state with `f(state, x)` — the first component of
`f(state, x)` when `returns_state` — and emits the computed output; over a
whole input sequence the emitted values are the scan of the inputs. -/
theorem dask_accumulate_update_spec {α : Type} (f : α → α → α)
    (g : α → α → α × α) (s x : α) (xs : List α) :
    daskAccumulateUpdate f none x = (some x, x)
    ∧ daskAccumulateUpdate f (some s) x = (some (f s x), f s x)
    ∧ daskAccumulateUpdateRS g none x = (some x, x)
    ∧ daskAccumulateUpdateRS g (some s) x = (some (g s x).1, (g s x).2)
    ∧ daskAccumulateRun f none (x :: xs) = List.scanl f x xs := by
  refine ⟨rfl, rfl, rfl, rfl, ?_⟩
  simp only [daskAccumulateRun, daskAccumulateUpdate]
  rw [daskAccumulateRun_some]
  exact (scanl_cons_head_tail f x xs).symm

/-- C3. Scan and filter fan-out: on the input sequence `0,1,2,3` the chain
`map(+1).scan(+)` delivers exactly `[3, 6, 10]` — the first mapped element
`1` is absorbed as the accumulator and produces no output — while the
sibling chain `map(·2)` on the same source delivers exactly
`[0, 2, 4, 6]`. -/
theorem scan_filter_fanout :
    coreScan (· + ·) none (coreMap (· + 1) [0, 1, 2, 3]) = [3, 6, 10]
    ∧ coreMap (· * 2) [0, 1, 2, 3] = [0, 2, 4, 6] := by
  constructor <;> rfl

/-- C5. `combine_latest` keeps only the last value seen on each input and
emits a tuple exactly when, after the event, every input has produced at
least one value — hence only after all inputs have produced, and then on
every subsequent event from any input; on the event order
`A:1, A:2, B:'a', A:3, B:'b'` (with `'a', 'b'` encoded as `100, 101`) the
downstream list is exactly `[(2,'a'), (3,'a'), (3,'b')]`. -/
theorem combine_latest_spec {α β : Type} (la : Option α) (lb : Option β)
    (x : α) (y : β) :
    (combineLatestUpdate (la, lb) (.fromA x)).1 = (some x, lb)
    ∧ (combineLatestUpdate (la, lb) (.fromB y)).1 = (la, some y)
    ∧ (combineLatestUpdate (la, lb) (.fromA x)).2
        = (match lb with | some b => [(x, b)] | none => [])
    ∧ (combineLatestUpdate (la, lb) (.fromB y)).2
        = (match la with | some a => [(a, y)] | none => [])
    ∧ combineLatestRun ((none, none) : Option Nat × Option Nat)
        [.fromA 1, .fromA 2, .fromB 100, .fromA 3, .fromB 101]
        = [(2, 100), (3, 100), (3, 101)] := by
  refine ⟨?_, ?_, ?_, ?_, rfl⟩ <;>
    cases la <;> cases lb <;> rfl

/-- C6. `unique(history, key)` emits an event `x` iff `key x` is not among
the recorded keys, and then records `key x`: a present key emits nothing
and leaves the record unchanged; an absent key is emitted and recorded;
with integer history `h` the record is a FIFO of capacity `h` (its length
stays at most `h`, and at capacity the oldest entry is evicted); with
`history = None` the record grows unboundedly; on the input sequence
`1,2,1,2,1,2,3,2,1` with `history = 2` the emitted values are exactly
`[1, 2, 3, 1]`. -/
theorem unique_spec {α κ : Type} [DecidableEq κ] (history : Option Nat)
    (key : α → κ) (h : Nat) (seen : List κ) (x : α) :
    (key x ∈ seen → uniqueUpdate history key seen x = (seen, []))
    ∧ (key x ∉ seen → (uniqueUpdate history key seen x).2 = [x])
    ∧ (key x ∉ seen → 1 ≤ h →
        key x ∈ (uniqueUpdate (some h) key seen x).1)
    ∧ (key x ∉ seen → seen.length ≤ h →
        (uniqueUpdate (some h) key seen x).1.length ≤ h)
    ∧ (key x ∉ seen → seen.length = h → 1 ≤ h →
        (uniqueUpdate (some h) key seen x).1 = seen.tail ++ [key x])
    ∧ (key x ∉ seen → seen.length < h →
        (uniqueUpdate (some h) key seen x).1 = seen ++ [key x])
    ∧ (key x ∉ seen →
        (uniqueUpdate none key seen x).1 = seen ++ [key x])
    ∧ uniqueRun (some 2) id ([] : List Nat) [1, 2, 1, 2, 1, 2, 3, 2, 1]
        = [1, 2, 3, 1] := by
  refine ⟨fun hmem => ?_, fun hmem => ?_, fun hmem hone => ?_,
    fun hmem hlen => ?_, fun hmem hlen hone => ?_, fun hmem hlen => ?_,
    fun hmem => ?_, by decide⟩
  · simp [uniqueUpdate, hmem]
  · cases history <;> simp [uniqueUpdate, hmem]
  · by_cases hc : h < (seen ++ [key x]).length <;>
      simp only [uniqueUpdate, hmem, if_neg, hc, if_pos, ite_true, ite_false]
    · cases seen with
      | nil => simp at hc; omega
      | cons a t => simp
    · simp
  · by_cases hc : h < (seen ++ [key x]).length <;>
      simp only [uniqueUpdate, hmem, if_neg, hc, ite_true, ite_false] <;>
      simp at hc ⊢ <;> omega
  · have hc : h < (seen ++ [key x]).length := by simp; omega
    simp only [uniqueUpdate, hmem, ite_false, if_neg, hc, ite_true]
    cases seen with
    | nil => simp at hlen; omega
    | cons a t => simp
  · simp [uniqueUpdate, hmem]
    exact fun hcontra => absurd hcontra (by omega)
  · simp [uniqueUpdate, hmem]

/-- Specification-side description of the accumulate outputs for the batch
embedding: the successive folds of `f` over the non-empty prefixes of `b`,
starting from `acc`. -/
def accumulateFolds {α : Type} (f : α → α → α) (acc : α) (b : List α) :
    List α :=
  (List.range b.length).map fun i => (b.take (i + 1)).foldl f acc

/-- The generator loop of toolz `accumulate` computes exactly the
successive prefix folds. -/
lemma accumLoop_eq_folds {α : Type} (f : α → α → α) (acc : α) (b : List α) :
    accumLoop f acc b = accumulateFolds f acc b := by
  induction b generalizing acc with
  | nil => rfl
  | cons y ys ih =>
    simp only [accumulateFolds, List.length_cons, List.range_succ_eq_map,
      List.map_cons, List.map_map, Function.comp, List.take_succ_cons,
      List.foldl_cons, List.take_zero, List.foldl_nil, accumLoop]
    exact congrArg _ (ih (f acc y))

/-- Folding an `if isEmpty` selection into `getLastD`. -/
lemma ite_isEmpty_getLast {α : Type} (l : List α) (a : α) :
    (if l.isEmpty then some a else l.getLast?) = some (l.getLastD a) := by
  cases l with
  | nil => simp
  | cons y ys =>
    rcases Option.isSome_iff_exists.mp
        (List.getLast?_isSome.mpr (List.cons_ne_nil y ys)) with ⟨z, hz⟩
    simp [List.getLastD_eq_getLast?, hz]

/-- C9. `Batch.__stream_accumulate__(f, acc)` with a supplied accumulator
returns `(acc', out)` where `out` has exactly `len(b)` elements — the
successive folds of `f` starting from `acc` — and `acc'` is the last
element of `out`, or `acc` itself when `b` is empty (`getLastD`); with the
`no_default` sentinel as accumulator, burning the first accumulated element
raises on an empty `Batch`, and on a non-empty `Batch` the output has
`len(b) − 1` elements. -/
theorem batch_accumulate_spec {α : Type} (f : α → α → α) (acc x : α)
    (b xs : List α) :
    streamAccumulate f b (some acc)
      = .ok (some ((accumulateFolds f acc b).getLastD acc),
             accumulateFolds f acc b)
    ∧ (accumulateFolds f acc b).length = b.length
    ∧ streamAccumulate f ([] : List α) none = .error "StopIteration"
    ∧ (streamAccumulate f (x :: xs) none).map (fun r => r.2.length)
        = .ok xs.length := by
  refine ⟨?_, by simp [accumulateFolds], rfl, ?_⟩
  · simp only [streamAccumulate, toolzAccumulateInit, accumLoop_eq_folds]
    rw [ite_isEmpty_getLast]
  · simp only [streamAccumulate, toolzAccumulate, Except.map, accumLoop_eq_folds]
    simp [accumulateFolds]

/-- C8. In the Dask backend a value rejected by `filter` is not suppressed
at the filter stage: the `return_null`-wrapped predicate maps it to the
`NULL_COMPUTE` sentinel, which is still emitted downstream (an accepted
value passes through unchanged), and `gather.update` emits a gathered
result downstream iff the result is not `NULL_COMPUTE` and, when it is a
sequence, contains no `NULL_COMPUTE` element — so rejected values are
dropped exactly at the gather stage. -/
theorem dask_filter_gather_null_compute (p : DVal → Bool) (x r : DVal) :
    (p x = false → daskFilterUpdate p x = DVal.scalar .nullCompute
      ∧ gatherEmits (daskFilterUpdate p x) = false)
    ∧ (p x = true → daskFilterUpdate p x = x)
    ∧ (gatherEmits r = true ↔
        r ≠ DVal.scalar .nullCompute
        ∧ ∀ e ∈ r.elems, e ≠ SVal.nullCompute) := by
  refine ⟨fun hp => ?_, fun hp => ?_, ?_⟩
  · simp [daskFilterUpdate, return_null, hp, gatherEmits, DVal.isSequence,
      DVal.isNull]
  · simp [daskFilterUpdate, return_null, hp]
  · cases r with
    | scalar sv =>
      cases sv <;>
        simp [gatherEmits, DVal.isSequence, DVal.isNull, DVal.elems]
    | seq l =>
      simp [gatherEmits, DVal.isSequence, DVal.isNull, DVal.elems,
        List.any_eq_true]

/-- C10. The cumulative-aggregation accumulator `_cumulative_accumulator`
preserves its invariant at every step, for any row-count-preserving
cumulative op: starting from a state that is empty or a single row, the new
state is again at most one row (exactly one as soon as a non-empty
partition arrives), the emitted result has exactly as many rows as the
incoming partition, and an empty incoming partition leaves the state
unchanged and emits that empty partition. -/
theorem cumulative_accumulator_invariant {α : Type} (op : List α → List α)
    (hop : ∀ l, (op l).length = l.length) (state new : List α)
    (hstate : state.length ≤ 1) :
    (cumulativeAccumulator op state new).1.length ≤ 1
    ∧ (new ≠ [] → (cumulativeAccumulator op state new).1.length = 1)
    ∧ (cumulativeAccumulator op state new).2.length = new.length
    ∧ (new = [] → cumulativeAccumulator op state new = (state, new)) := by
  cases new with
  | nil =>
    refine ⟨?_, by simp, by simp [cumulativeAccumulator], by
      simp [cumulativeAccumulator]⟩
    simpa [cumulativeAccumulator] using hstate
  | cons n ns =>
    cases state with
    | nil =>
      refine ⟨?_, fun _ => ?_, ?_, by simp⟩ <;>
        simp [cumulativeAccumulator, hop]
    | cons s t =>
      have ht : t = [] := by
        simpa [Nat.le_zero, List.length_eq_zero] using hstate
      subst ht
      refine ⟨?_, fun _ => ?_, ?_, by simp⟩ <;>
        simp [cumulativeAccumulator, hop]

/-- The per-downstream completion markers appear, in registration order,
inside the concatenation of the per-downstream processing blocks. -/
lemma updateDone_sublist_flatten (f : Nat → List Ev) (ds : List Nat) :
    (ds.map Ev.updateDone).Sublist
      ((ds.map fun d => f d ++ [Ev.updateDone d]).flatten) := by
  induction ds with
  | nil => simp
  | cons d ds ih =>
    simp only [List.map_cons, List.flatten_cons, List.append_assoc,
      List.singleton_append]
    exact ((ih.cons₂ (Ev.updateDone d)).trans
      (List.sublist_append_right (f d) _))

/-- C1. For every node and every emitted value, the future returned by
`emit` completes only after the update of every downstream — and,
transitively, every emit those updates perform — has completed: in the
propagation trace the resolution of the composite future is the very last
event, every downstream's `update`-completion event strictly precedes it,
and the completion events of the downstreams occur in registration
order. -/
theorem emit_resolves_after_downstream_updates (g : Nat → List Nat)
    (fuel n d : Nat) (hd : d ∈ g n) :
    (emitTrace g (fuel + 1) n).getLast? = some (.emitResolved n)
    ∧ Ev.updateDone d ∈ (emitTrace g (fuel + 1) n).dropLast
    ∧ ((g n).map Ev.updateDone).Sublist (emitTrace g (fuel + 1) n).dropLast := by
  have hsub : ((g n).map Ev.updateDone).Sublist
      (emitTrace g (fuel + 1) n).dropLast := by
    simp only [emitTrace, List.dropLast_concat]
    exact updateDone_sublist_flatten (fun d => emitTrace g fuel d) (g n)
  exact ⟨by simp [emitTrace, List.getLast?_concat],
    hsub.mem (List.mem_map_of_mem Ev.updateDone hd), hsub⟩

/-- Witness for `emit_resolves_after_downstream_updates`: a node `0` with
downstreams `1` and `2`. -/
theorem emit_resolves_after_downstream_updates_witness :
    1 ∈ (fun k => if k = 0 then [1, 2] else []) 0
    ∧ ((emitTrace (fun k => if k = 0 then [1, 2] else []) (1 + 1) 0).getLast?
          = some (.emitResolved 0)
      ∧ Ev.updateDone 1
          ∈ (emitTrace (fun k => if k = 0 then [1, 2] else []) (1 + 1) 0).dropLast
      ∧ (((fun k => if k = 0 then [1, 2] else []) 0).map Ev.updateDone).Sublist
          (emitTrace (fun k => if k = 0 then [1, 2] else []) (1 + 1) 0).dropLast) :=
  ⟨by decide,
   emit_resolves_after_downstream_updates (fun k => if k = 0 then [1, 2] else [])
     1 0 1 (by decide)⟩

/-- C4. Zip backpressure: whenever one of zip's per-input bounded queues is
at `maxsize`, the producing `update` suspends — the put becomes pending and
the emit's future stays unresolved; concretely with `maxsize = 2`, after
`a.emit(1)`, `a.emit(2)` and `a.emit(3)` the third emit's future is
unresolved and nothing has been emitted while `b` has produced nothing,
and once `b.emit('a')` occurs (`'a'` encoded as `100`) that future
resolves and the downstream has received exactly `[(1, 'a')]`. -/
theorem zip_backpressure (m i x : Nat) (s : ZipState)
    (hfull : m ≤ s.qa.length) :
    zipEventA m i x s = { s with pendA := s.pendA ++ [(i, x)] }
    ∧ (i ∉ s.resolved → i ∉ (zipEventA m i x s).resolved)
    ∧ (let s3 := zipRun 2 ZipState.init
        [.fromA (1, 1), .fromA (2, 2), .fromA (3, 3)]
       (s3.out = [] ∧ 3 ∉ s3.resolved)
       ∧ ((zipEventB 2 4 100 s3).out = [(1, 100)]
          ∧ 3 ∈ (zipEventB 2 4 100 s3).resolved)) := by
  refine ⟨by simp [zipEventA, hfull], fun hi => ?_, by decide⟩
  simpa [zipEventA, hfull] using hi

/-- Witness for `zip_backpressure`: a full queue `a` of capacity 2. -/
theorem zip_backpressure_witness :
    2 ≤ (ZipState.mk [5, 6] [] [] [] [] [] : ZipState).qa.length
    ∧ (zipEventA 2 9 7 (ZipState.mk [5, 6] [] [] [] [] [])
        = { (ZipState.mk [5, 6] [] [] [] [] []) with
            pendA := (ZipState.mk [5, 6] [] [] [] [] []).pendA ++ [(9, 7)] }
      ∧ (9 ∉ (ZipState.mk [5, 6] [] [] [] [] [] : ZipState).resolved →
          9 ∉ (zipEventA 2 9 7 (ZipState.mk [5, 6] [] [] [] [] [])).resolved)
      ∧ (let s3 := zipRun 2 ZipState.init
          [.fromA (1, 1), .fromA (2, 2), .fromA (3, 3)]
         (s3.out = [] ∧ 3 ∉ s3.resolved)
         ∧ ((zipEventB 2 4 100 s3).out = [(1, 100)]
            ∧ 3 ∈ (zipEventB 2 4 100 s3).resolved))) :=
  ⟨by decide, zip_backpressure 2 9 7 (ZipState.mk [5, 6] [] [] [] [] [])
    (by decide)⟩

/-- Witness for `unique_spec`: key `2` is absent from the record `[1]`, so
it is emitted; at capacity the oldest key is evicted; the literal scenario
holds. -/
theorem unique_spec_witness :
    ((2 : Nat) ∉ ([1] : List Nat)
      ∧ (uniqueUpdate (some 2) (id : Nat → Nat) [1] 2).2 = [2])
    ∧ ((3 : Nat) ∉ ([1, 2] : List Nat) ∧ ([1, 2] : List Nat).length = 2
        ∧ 1 ≤ 2
        ∧ (uniqueUpdate (some 2) (id : Nat → Nat) [1, 2] 3).1
            = [1, 2].tail ++ [id 3])
    ∧ uniqueRun (some 2) id ([] : List Nat) [1, 2, 1, 2, 1, 2, 3, 2, 1]
        = [1, 2, 3, 1] :=
  ⟨⟨by decide,
    (unique_spec (some 2) (id : Nat → Nat) 2 [1] 2).2.1 (by decide)⟩,
   ⟨by decide, by decide, by decide,
    (unique_spec (some 2) (id : Nat → Nat) 2 [1, 2] 3).2.2.2.2.1 (by decide)
      (by decide) (by decide)⟩,
   (unique_spec (some 2) (id : Nat → Nat) 2 [1] 2).2.2.2.2.2.2.2⟩

/-- Witness for `dask_filter_gather_null_compute`: the predicate
`isSequence` rejects the scalar `5`, which the filter stage turns into the
sentinel and the gather stage then refuses to emit. -/
theorem dask_filter_gather_null_compute_witness :
    (fun v : DVal => v.isSequence) (DVal.scalar (SVal.base 5)) = false
    ∧ (daskFilterUpdate (fun v : DVal => v.isSequence)
          (DVal.scalar (SVal.base 5)) = DVal.scalar .nullCompute
      ∧ gatherEmits (daskFilterUpdate (fun v : DVal => v.isSequence)
          (DVal.scalar (SVal.base 5))) = false) :=
  ⟨by decide,
   (dask_filter_gather_null_compute (fun v : DVal => v.isSequence)
      (DVal.scalar (SVal.base 5)) (DVal.scalar (SVal.base 5))).1 (by decide)⟩

/-- Witness for `cumulative_accumulator_invariant`: the running-sum op on a
single-row state `[6]` and the partition `[1, 2]`. -/
theorem cumulative_accumulator_invariant_witness :
    (∀ l : List Nat, ((List.scanl (· + ·) 0 l).tail).length = l.length)
    ∧ ([6] : List Nat).length ≤ 1
    ∧ ((cumulativeAccumulator
          (fun l => (List.scanl (· + ·) 0 l).tail) [6] [1, 2]).1.length ≤ 1
      ∧ (([1, 2] : List Nat) ≠ [] →
          (cumulativeAccumulator
            (fun l => (List.scanl (· + ·) 0 l).tail) [6] [1, 2]).1.length = 1)
      ∧ (cumulativeAccumulator
          (fun l => (List.scanl (· + ·) 0 l).tail) [6] [1, 2]).2.length
            = ([1, 2] : List Nat).length
      ∧ (([1, 2] : List Nat) = [] →
          cumulativeAccumulator
            (fun l => (List.scanl (· + ·) 0 l).tail) [6] [1, 2]
              = ([6], [1, 2]))) :=
  ⟨fun l => by simp [List.length_scanl], by decide,
   cumulative_accumulator_invariant (fun l => (List.scanl (· + ·) 0 l).tail)
     (fun l => by simp [List.length_scanl]) [6] [1, 2] (by decide)⟩

end Streams
